import Mathlib

/-!
Verification development for the point-in-time portfolio construction,
weighting and backtesting pipeline (portfolio_creation.py,
portfolio_weighting.py, backtester.py).

Data values stored in the database are modelled as exact rationals;
statistics that the code computes with floating point (volatility,
Sharpe) are modelled over the reals, with square roots via Real.sqrt.
Period labels are modelled as lists of naturals (character codes); the
year suffix written by the ingestion layer consists of the decimal
digits of the year, so a label ending in the digits of y is the
shallow-embedded counterpart of a Python string ending in str(y).
Dates are proleptic Gregorian ordinals (as in Python's datetime.date),
so date(year, 1, 1) is jan1 year and timedelta arithmetic is integer
arithmetic.
-/

/-- Proleptic Gregorian ordinal of January 1st of a year, as in
Python's date(year, 1, 1).toordinal(). -/
def jan1 (y : ℕ) : ℤ :=
  365 * ((y : ℤ) - 1) + ((y : ℤ) - 1) / 4 - ((y : ℤ) - 1) / 100 + ((y : ℤ) - 1) / 400 + 1

/-- Decimal digits of n, most significant first, with explicit fuel so
the kernel can evaluate it. -/
def revDigits (fuel : ℕ) (n : ℕ) : List ℕ :=
  match fuel with
  | 0 => []
  | fuel + 1 => if n = 0 then [] else revDigits fuel (n / 10) ++ [n % 10]

/-- The decimal digits of a year, most significant first: the suffix
that `Financial.period_label.endswith(str(year))` tests for. -/
def yearSuffix (y : ℕ) : List ℕ := revDigits y y

/-- A period label (a list of character codes) denotes year `y` when it
ends with the decimal digits of `y` (spec §3: a label ending in "2020"
represents data as of fiscal 2020). -/
def labelDenotes (lab : List ℕ) (y : ℕ) : Prop := yearSuffix y <:+ lab

/-- Executable form of `period_label.endswith(str(y))`. -/
def endsWithYear (lab : List ℕ) (y : ℕ) : Bool := decide (yearSuffix y <:+ lab)

/-- Row of the metrics table. -/
structure Metric where
  id : ℕ
  name : String
deriving DecidableEq

/-- Row of the financials table (a FinancialFact). -/
structure Financial where
  company_id : ℕ
  metric_id : ℕ
  period_label : List ℕ
  value : ℚ
deriving DecidableEq

/-- Row of the prices table (a PricePoint); `date` is a Gregorian ordinal. -/
structure Price where
  company_id : ℕ
  date : ℤ
  close : ℚ
deriving DecidableEq

/-- The read-only slice of the data store that the pipeline consumes. -/
structure DB where
  metrics : List Metric
  financials : List Financial
  prices : List Price
  companies : List ℕ
deriving DecidableEq

/-- session.query(Metric).filter(Metric.name == n).first() -/
def findMetric (db : DB) (n : String) : Option Metric :=
  db.metrics.find? (fun m => m.name == n)

/-- One filter clause of a rule's rule_json. -/
structure FilterClause where
  name : String
  sign : String
  threshold : ℚ
  period : String
deriving DecidableEq

/-- A rule: identity plus its filter clauses. -/
structure Rule where
  id : ℕ
  filters : List FilterClause
deriving DecidableEq

/-- The four comparator strings the clause evaluator recognizes. -/
def validSign (s : String) : Bool :=
  s == ">" || s == "<" || s == ">=" || s == "<="

/-- The comparator applied to a fact value and a threshold, following the
elif chain in generate_portfolio. -/
def signHolds (s : String) (v t : ℚ) : Bool :=
  if s == ">" then decide (t < v)
  else if s == "<" then decide (v < t)
  else if s == ">=" then decide (t ≤ v)
  else decide (v ≤ t)

/-- The join condition of one filter clause: the fact's metric resolves to
the clause's metric name and the fact's period label ends with str(year-1).
These are exactly the FinancialFact rows the clause evaluation reads. -/
def clauseMatches (db : DB) (year : ℕ) (fc : FilterClause) (fact : Financial) : Bool :=
  db.metrics.any (fun m => m.id == fact.metric_id && m.name == fc.name) &&
    endsWithYear fact.period_label (year - 1)

/-- A company satisfies a clause when some read fact passes the comparator;
a clause with an unrecognized sign is skipped (imposes no constraint). -/
def satisfiesClause (db : DB) (year : ℕ) (cid : ℕ) (fc : FilterClause) : Bool :=
  if validSign fc.sign then
    db.financials.any (fun fact =>
      fact.company_id == cid && clauseMatches db year fc fact &&
        signHolds fc.sign fact.value fc.threshold)
  else true

/-- The distinct company ids satisfying every clause (inner-join semantics). -/
def eligibleIds (db : DB) (rule : Rule) (year : ℕ) : List ℕ :=
  db.companies.filter (fun cid => rule.filters.all (satisfiesClause db year cid))

/-- get_market_cap_for_sorting: previous-year market-cap facts for the
eligible companies, as (company_id, value) pairs; the dict comprehension
keeps the last entry per company. -/
def sortingCaps (db : DB) (ids : List ℕ) (year : ℕ) : List (ℕ × ℚ) :=
  if ids.isEmpty then []
  else
    match findMetric db "market_cap" with
    | none => ids.map (fun c => (c, 0))
    | some m =>
      (db.financials.filter (fun f =>
        ids.contains f.company_id && f.metric_id == m.id &&
          endsWithYear f.period_label (year - 1))).map (fun f => (f.company_id, f.value))

/-- market_caps.get(cid, 0): the ranking key, defaulting to 0; reversing
first makes lookup return the last binding, as a Python dict does. -/
def sortKey (caps : List (ℕ × ℚ)) (cid : ℕ) : ℚ :=
  ((caps.reverse).lookup cid).getD 0

/-- eligible_company_ids.sort(key=..., reverse=True): a stable descending
sort by the market-cap key. -/
def rankedIds (db : DB) (rule : Rule) (year : ℕ) : List ℕ :=
  let eligible := eligibleIds db rule year
  let key := sortKey (sortingCaps db eligible year)
  eligible.insertionSort (fun a b => key b ≤ key a)

/-- The top-20 truncation; a rule with no filter clauses yields an empty
universe (generate_portfolio returns [] before querying). -/
def topCompanyIds (db : DB) (rule : Rule) (year : ℕ) : List ℕ :=
  if rule.filters.isEmpty then [] else (rankedIds db rule year).take 20

/-- The YearlyPortfolio store: (rule_id, year) keyed weight mappings. -/
abbrev Store := List ((ℕ × ℕ) × List (String × ℚ))

/-- Update the existing (rule_id, year) record in place, or add a new one. -/
def upsertStore (store : Store) (k : ℕ × ℕ) (v : List (String × ℚ)) : Store :=
  if (store.lookup k).isSome then
    store.map (fun e => if e.1 = k then (k, v) else e)
  else store ++ [(k, v)]

/-- generate_portfolio: returns the selected company ids and the updated
store.  An empty top list is a terminal outcome with no store write; a
non-empty one writes the all-zero placeholder weight mapping. -/
def generatePortfolio (db : DB) (rule : Rule) (year : ℕ) (store : Store) :
    List ℕ × Store :=
  let top := topCompanyIds db rule year
  if top.isEmpty then ([], store)
  else (top, upsertStore store (rule.id, year) (top.map (fun cid => (toString cid, (0 : ℚ)))))

/-! portfolio_weighting.py -/

/-- The elements of a series, mean. -/
def listMean (l : List ℚ) : ℚ := l.sum / l.length

/-- Sample variance with ddof = 1, as pandas Series.std uses. -/
def sampleVar (l : List ℚ) : ℚ :=
  (l.map (fun x => (x - listMean l) ^ 2)).sum / ((l.length - 1 : ℕ) : ℚ)

/-- Sample standard deviation (pandas Series.std, ddof = 1). -/
noncomputable def sampleStd (l : List ℚ) : ℝ := Real.sqrt ((sampleVar l : ℚ) : ℝ)

/-- Series.pct_change().dropna(): day-over-day percentage changes. -/
def pctChanges (l : List ℚ) : List ℚ :=
  (l.zip l.tail).map (fun p => p.2 / p.1 - 1)

/-- tail(n): the last n elements. -/
def lastN (l : List ℚ) (n : ℕ) : List ℚ := l.drop (l.length - n)

/-- The close prices of one company from a row set, in date order
(sort_values('date')). -/
def closesFor (rows : List Price) (cid : ℕ) : List ℚ :=
  ((rows.filter (fun p => p.company_id == cid)).insertionSort
    (fun a b => a.date ≤ b.date)).map Price.close

/-- The price rows get_volatility queries: the companies of interest,
dated between end_date - int(lookback * 1.5) and end_date, where
end_date is the day before January 1st of the formation year. -/
def volWindowRows (db : DB) (ids : List ℕ) (year : ℕ) (lookback : ℕ) : List Price :=
  let endDate : ℤ := jan1 year - 1
  let startDate : ℤ := endDate - ((3 * lookback / 2 : ℕ) : ℤ)
  db.prices.filter (fun p =>
    ids.contains p.company_id && decide (startDate ≤ p.date) && decide (p.date ≤ endDate))

/-- get_volatility: 1 for every company when the fetched frame is empty;
otherwise per company the annualized std of daily returns over the most
recent lookback closes, defaulting to 0.2 when fewer than 2 closes. -/
noncomputable def getVolatility (db : DB) (ids : List ℕ) (year : ℕ) (lookback : ℕ)
    (cid : ℕ) : ℝ :=
  let rows := volWindowRows db ids year lookback
  if rows.isEmpty then 1
  else
    let prices := lastN (closesFor rows cid) lookback
    if prices.length < 2 then 1 / 5
    else sampleStd (pctChanges prices) * Real.sqrt 252

/-- The previous-year market-cap facts get_market_caps queries. -/
def mcapRows (db : DB) (ids : List ℕ) (year : ℕ) : List Financial :=
  match findMetric db "market_cap" with
  | none => []
  | some m =>
    db.financials.filter (fun f =>
      ids.contains f.company_id && f.metric_id == m.id &&
        endsWithYear f.period_label (year - 1))

/-- get_market_caps: the fallback to 1 covers a missing market_cap metric,
an empty result frame, and (via reindex fill_value) companies without a
matching fact. -/
def getMarketCaps (db : DB) (ids : List ℕ) (year : ℕ) (cid : ℕ) : ℚ :=
  let rows := mcapRows db ids year
  if rows.isEmpty then 1
  else ((rows.find? (fun f => f.company_id == cid)).map Financial.value).getD 1

/-- The price rows the momentum scheme queries: between end_date minus
momentum_period days and end_date, the day before January 1st. -/
def momWindowRows (db : DB) (ids : List ℕ) (year : ℕ) (period : ℕ) : List Price :=
  let endDate : ℤ := jan1 year - 1
  let startDate : ℤ := endDate - (period : ℤ)
  db.prices.filter (fun p =>
    ids.contains p.company_id && decide (startDate ≤ p.date) && decide (p.date ≤ endDate))

/-- Raw momentum score: total return from the first to the last available
close in the window; 0 with fewer than 2 closes. -/
def momScore (db : DB) (ids : List ℕ) (year : ℕ) (period : ℕ) (cid : ℕ) : ℚ :=
  let prices := closesFor (momWindowRows db ids year period) cid
  if prices.length < 2 then 0
  else prices.getLast?.getD 0 / prices.head?.getD 0 - 1

/-- mom_series[mom_series < 0] = 0: negative scores clamped to zero. -/
def clampedMom (db : DB) (ids : List ℕ) (year : ℕ) (period : ℕ) (cid : ℕ) : ℚ :=
  let s := momScore db ids year period cid
  if s < 0 then 0 else s

/-- A Python dict {str(cid): f(cid) for cid in ids}: one entry per
distinct id, keyed by the id's decimal string. -/
def mkDict {α : Type} (ids : List ℕ) (f : ℕ → α) : List (String × α) :=
  ids.dedup.map (fun c => (toString c, f c))

/-- The four weighting schemes of compute_weights. -/
inductive Scheme where
  | equal
  | market_cap
  | inverse_vol
  | momentum
deriving DecidableEq

/-- compute_weights: the weight mapping (company id string to weight) for
one scheme.  Sums mirror the pandas Series sums: over the id list for the
reindexed market-cap series, over the distinct ids for the dict-built
volatility and momentum series. -/
noncomputable def computeWeights (db : DB) (ids : List ℕ) (year : ℕ) (scheme : Scheme)
    (lookbackVol : ℕ) (momentumPeriod : ℕ) : List (String × ℝ) :=
  if ids.isEmpty then []
  else
    match scheme with
    | .equal => mkDict ids (fun _ => 1 / (ids.length : ℝ))
    | .market_cap =>
      let m := getMarketCaps db ids year
      let s : ℚ := (ids.map m).sum
      mkDict ids (fun c => ((m c / s : ℚ) : ℝ))
    | .inverse_vol =>
      let v := getVolatility db ids year lookbackVol
      let inv : ℕ → ℝ := fun c => 1 / (v c + 1 / 100000000)
      let s : ℝ := (ids.dedup.map inv).sum
      mkDict ids (fun c => inv c / s)
    | .momentum =>
      let m := clampedMom db ids year momentumPeriod
      let s : ℚ := (ids.dedup.map m).sum
      if 0 < s then mkDict ids (fun c => ((m c / s : ℚ) : ℝ))
      else mkDict ids (fun _ => 1 / (ids.length : ℝ))

/-- The total of a weight mapping's values. -/
def sumValues (w : List (String × ℝ)) : ℝ := (w.map Prod.snd).sum

/-! backtester.py -/

/-- A Python value used as a mapping key or column label: the weight
mappings read back from JSON carry string keys, while the price panel's
column labels are the integer company ids; Python equality between an
int and a str is always False. -/
inductive PKey where
  | pint : ℕ → PKey
  | pstr : String → PKey
deriving DecidableEq

/-- SQL comparison of a weight-mapping key against the integer company_id
column: the database layer coerces a numeric string literal. -/
def sqlKeyMatches : PKey → ℕ → Bool
  | .pint n, cid => n == cid
  | .pstr s, cid => s == toString cid

/-- The price rows compute_portfolio_returns fetches: companies named by
the weight-mapping keys, dated within [year-01-01, year-12-31]. -/
def yearRows (db : DB) (wkeys : List PKey) (year : ℕ) : List Price :=
  db.prices.filter (fun p =>
    wkeys.any (fun k => sqlKeyMatches k p.company_id) &&
      decide (jan1 year ≤ p.date) && decide (p.date ≤ jan1 (year + 1) - 1))

/-- The pivoted, forward-filled panel value of one company at one panel
date: the close at the latest row date not after d, when one exists. -/
def closeAt (rows : List Price) (cid : ℕ) (d : ℤ) : Option ℚ :=
  (((rows.filter (fun p => p.company_id == cid && decide (p.date ≤ d))).insertionSort
    (fun a b => a.date ≤ b.date)).getLast?).map Price.close

/-- The pct_change entry of one company between consecutive panel dates;
none encodes the NaN that dropna removes. -/
def panelRet (rows : List Price) (cid : ℕ) (dprev d : ℤ) : Option ℚ :=
  match closeAt rows cid dprev, closeAt rows cid d with
  | some a, some b => some (b / a - 1)
  | _, _ => none

/-- The integer behind a panel column label. -/
def pkeyNat : PKey → ℕ
  | .pint n => n
  | .pstr _ => 0

/-- compute_portfolio_returns: daily (date, portfolio return) pairs.
valid_ids keeps the weight-mapping keys that occur among the panel's
integer column labels; their weights are renormalized by their sum and
dotted with the per-company daily returns. -/
def computePortfolioReturns (db : DB) (weights : List (PKey × ℚ)) (year : ℕ) :
    List (ℤ × ℚ) :=
  let rows := yearRows db (weights.map Prod.fst) year
  if rows.isEmpty then []
  else
    let dates := ((rows.map Price.date).dedup).insertionSort (fun a b => a ≤ b)
    let cols := (rows.map Price.company_id).dedup
    let kept := (dates.zip dates.tail).filter
      (fun p => cols.all (fun c => (panelRet rows c p.1 p.2).isSome))
    let validIds := (weights.map Prod.fst).filter (fun k => (cols.map PKey.pint).contains k)
    let wOf : PKey → ℚ := fun k => (weights.lookup k).getD 0
    let s : ℚ := (validIds.map wOf).sum
    kept.map (fun p =>
      (p.2, (validIds.map (fun k => wOf k / s * ((panelRet rows (pkeyNat k) p.1 p.2).getD 0))).sum))

/-- pandas Series.median: middle element, or mean of the two middles. -/
def listMedian (l : List ℚ) : ℚ :=
  let s := l.insertionSort (fun a b => a ≤ b)
  if l.length % 2 = 1 then s.getD (l.length / 2) 0
  else (s.getD (l.length / 2 - 1) 0 + s.getD (l.length / 2) 0) / 2

/-- The four backtest metrics, each possibly undefined. -/
structure BacktestMetrics where
  mean_return : Option ℝ
  median_return : Option ℝ
  volatility : Option ℝ
  sharpe : Option ℝ

/-- compute_metrics: annualized statistics of a daily return series. -/
noncomputable def computeMetrics (riskFreeRate : ℚ) (returns : List ℚ) : BacktestMetrics :=
  if returns.isEmpty then ⟨none, none, none, none⟩
  else
    let meanRet : ℝ := ((listMean returns : ℚ) : ℝ) * 252
    let medianRet : ℝ := ((listMedian returns : ℚ) : ℝ) * 252
    let vol : ℝ := sampleStd returns * Real.sqrt 252
    ⟨some meanRet, some medianRet, some vol,
      if 0 < vol then some ((meanRet - ((riskFreeRate : ℚ) : ℝ)) / vol) else none⟩

/-! Concrete data for witnesses and counterexamples. -/

/-- An empty data store. -/
def dbEmpty : DB := ⟨[], [], [], []⟩

/-- A store with one ROE fact for fiscal 2020 (label "FY2020" modelled by
its digit-bearing tail) and the roe metric. -/
def dbC2 : DB := ⟨[⟨5, "roe"⟩], [⟨1, 5, [2, 0, 2, 0], 15⟩], [], [1]⟩

/-- An ROE > 10 clause. -/
def fcROE : FilterClause := ⟨"roe", ">", 10, "1Y"⟩

/-- A clause with an unrecognized comparator. -/
def fcBad : FilterClause := ⟨"roe", "!=", 10, "1Y"⟩

/-- Momentum data: company 1 rises from 10 to 13 in the trailing window,
company 2 falls from 10 to 8. -/
def dbMom : DB :=
  ⟨[], [], [⟨1, jan1 2021 - 10, 10⟩, ⟨1, jan1 2021 - 5, 13⟩,
    ⟨2, jan1 2021 - 10, 10⟩, ⟨2, jan1 2021 - 5, 8⟩], [1, 2]⟩

/-- Volatility data: a single close for company 2 in the lookback window,
nothing for company 1. -/
def dbVolOne : DB := ⟨[], [], [⟨2, jan1 2021 - 10, 50⟩], [1, 2]⟩

/-- Ranking data: three companies pass an ROE clause; companies 2 and 3
share the top market cap, company 1 has no market-cap fact. -/
def dbRank : DB :=
  ⟨[⟨1, "roe"⟩, ⟨2, "market_cap"⟩],
    [⟨1, 1, [2, 0, 2, 0], 20⟩, ⟨2, 1, [2, 0, 2, 0], 20⟩, ⟨3, 1, [2, 0, 2, 0], 20⟩,
      ⟨2, 2, [2, 0, 2, 0], 300⟩, ⟨3, 2, [2, 0, 2, 0], 300⟩],
    [], [1, 2, 3]⟩

/-- A rule with a single ROE clause. -/
def ruleROE : Rule := ⟨7, [fcROE]⟩

/-- A rule with no filter clauses. -/
def ruleNoFilters : Rule := ⟨8, []⟩

/-- Price data for the backtester: two trading days for company 1 inside
2021, no data for company 2. -/
def dbC6 : DB := ⟨[], [], [⟨1, jan1 2021, 10⟩, ⟨1, jan1 2021 + 1, 11⟩], [1, 2]⟩

/-- An equally weighted two-company mapping with JSON string keys, as the
orchestrator passes to compute_portfolio_returns. -/
def weightsC6 : List (PKey × ℚ) := [(.pstr "1", 1 / 2), (.pstr "2", 1 / 2)]

/-! General helper lemmas. -/

/-- Sums distribute over pointwise division. -/
theorem sum_map_div {α : Type} [DivisionRing α] (l : List ℕ) (f : ℕ → α) (s : α) :
    (l.map (fun c => f c / s)).sum = (l.map f).sum / s := by
  induction l with
  | nil => simp
  | cons a t ih => simp [ih, add_div]

/-- Casting a rational list sum to the reals, pointwise. -/
theorem ratCast_list_sum (l : List ℕ) (f : ℕ → ℚ) :
    (((l.map f).sum : ℚ) : ℝ) = (l.map (fun c => ((f c : ℚ) : ℝ))).sum := by
  induction l with
  | nil => simp
  | cons a t ih => simp only [List.map_cons, List.sum_cons, Rat.cast_add, ih]

/-- A mapped sum of positive terms over a non-empty list is positive. -/
theorem sum_map_pos {α : Type} [StrictOrderedCommRing α] (l : List ℕ) (f : ℕ → α)
    (hne : l ≠ []) (h : ∀ c ∈ l, 0 < f c) : 0 < (l.map f).sum := by
  apply List.sum_pos
  · intro x hx
    obtain ⟨c, hc, rfl⟩ := List.mem_map.mp hx
    exact h c hc
  · simpa using hne

/-- A mapped sum of non-negative terms, one of which is positive, is positive. -/
theorem sum_map_pos_of_exists (l : List ℕ) (f : ℕ → ℚ)
    (hnn : ∀ c ∈ l, 0 ≤ f c) (hex : ∃ c ∈ l, f c ≠ 0) : 0 < (l.map f).sum := by
  obtain ⟨c, hc, hcne⟩ := hex
  have hle : f c ≤ (l.map f).sum := by
    apply List.single_le_sum
    · intro x hx
      obtain ⟨d, hd, rfl⟩ := List.mem_map.mp hx
      exact hnn d hd
    · exact List.mem_map.mpr ⟨c, hc, rfl⟩
  exact lt_of_lt_of_le (lt_of_le_of_ne (hnn c hc) (Ne.symm hcne)) hle

/-- Filtering one key class commutes with an ordered insert under the
descending-by-key relation: stability of a single insertion. -/
theorem filter_orderedInsert (key : ℕ → ℚ) (k : ℚ) (x : ℕ) :
    ∀ l : List ℕ,
      (List.orderedInsert (fun a b => key b ≤ key a) x l).filter (fun c => key c == k) =
        if key x == k then x :: l.filter (fun c => key c == k)
        else l.filter (fun c => key c == k)
  | [] => by simp [List.filter_cons]
  | y :: l => by
    simp only [List.orderedInsert]
    by_cases hr : key y ≤ key x
    · rw [if_pos hr, List.filter_cons]
    · rw [if_neg hr]
      simp only [List.filter_cons, filter_orderedInsert key k x l]
      by_cases hy : (key y == k) = true
      · have hx : ¬((key x == k) = true) := by
          intro hx
          exact hr (le_of_eq ((eq_of_beq hy).trans (eq_of_beq hx).symm))
        simp [hy, hx]
      · simp [hy]

/-- Stability of the full insertion sort: each key class keeps its input
order. -/
theorem filter_insertionSort (key : ℕ → ℚ) (k : ℚ) :
    ∀ l : List ℕ,
      (l.insertionSort (fun a b => key b ≤ key a)).filter (fun c => key c == k) =
        l.filter (fun c => key c == k)
  | [] => rfl
  | x :: l => by
    simp only [List.insertionSort]
    rw [filter_orderedInsert key k x, filter_insertionSort key k l, List.filter_cons]

/-- Two suffixes of one list with equal lengths coincide. -/
theorem suffix_eq_of_length {α : Type} {s1 s2 l : List α}
    (h1 : s1 <:+ l) (h2 : s2 <:+ l) (hlen : s1.length = s2.length) : s1 = s2 := by
  obtain ⟨t1, ht1⟩ := h1
  obtain ⟨t2, ht2⟩ := h2
  have hl : t1 ++ s1 = t2 ++ s2 := ht1.trans ht2.symm
  have hlt : t1.length = t2.length := by
    have := congrArg List.length hl
    simp only [List.length_append] at this
    omega
  exact (List.append_inj hl hlt).2

/-- With enough fuel, revDigits agrees with the reversed digit expansion. -/
theorem revDigits_eq_digits : ∀ fuel n : ℕ, n ≤ fuel →
    revDigits fuel n = (Nat.digits 10 n).reverse
  | 0, n, h => by
    have : n = 0 := Nat.le_zero.mp h
    subst this
    simp [revDigits]
  | fuel + 1, n, h => by
    unfold revDigits
    by_cases hn : n = 0
    · simp [hn]
    · rw [if_neg hn]
      have hdiv : n / 10 ≤ fuel := by
        have := Nat.div_lt_self (Nat.pos_of_ne_zero hn) (by norm_num : 1 < 10)
        omega
      rw [revDigits_eq_digits fuel (n / 10) hdiv,
        Nat.digits_def' (by norm_num : 1 < 10) (Nat.pos_of_ne_zero hn)]
      simp

/-- The year suffix is the reversed digit expansion. -/
theorem yearSuffix_eq_digits (y : ℕ) : yearSuffix y = (Nat.digits 10 y).reverse :=
  revDigits_eq_digits y y le_rfl

/-- A four-digit year's suffix has length four. -/
theorem yearSuffix_length (y : ℕ) (h1 : 1000 ≤ y) (h2 : y ≤ 9999) :
    (yearSuffix y).length = 4 := by
  rw [yearSuffix_eq_digits]
  rw [List.length_reverse, Nat.digits_len 10 y (by norm_num) (by omega)]
  have : Nat.log 10 y = 3 := by
    apply Nat.log_eq_of_pow_le_of_lt_pow
    · norm_num; omega
    · norm_num; omega
  omega

/-- The digit suffix determines the year. -/
theorem yearSuffix_inj {y y' : ℕ} (h : yearSuffix y = yearSuffix y') : y = y' := by
  rw [yearSuffix_eq_digits, yearSuffix_eq_digits] at h
  have hd : Nat.digits 10 y = Nat.digits 10 y' := by
    have := congrArg List.reverse h
    simpa using this
  have := congrArg (Nat.ofDigits 10) hd
  rwa [Nat.ofDigits_digits, Nat.ofDigits_digits] at this

/-- Membership in a weight dict built from an id list. -/
theorem mem_mkDict {α : Type} (ids : List ℕ) (f : ℕ → α) (c : ℕ) (h : c ∈ ids) :
    (toString c, f c) ∈ mkDict ids f :=
  List.mem_map.mpr ⟨c, List.mem_dedup.mpr h, rfl⟩

/-- On duplicate-free input the dict keys are the stringified ids in order. -/
theorem mkDict_keys {α : Type} (ids : List ℕ) (hnd : ids.Nodup) (f : ℕ → α) :
    (mkDict ids f).map Prod.fst = ids.map toString := by
  unfold mkDict
  rw [hnd.dedup, List.map_map]
  rfl

/-- Every dict value is a value of f at a member id. -/
theorem mkDict_values {α : Type} (ids : List ℕ) (f : ℕ → α) (pr : String × α)
    (h : pr ∈ mkDict ids f) : ∃ c ∈ ids, pr.2 = f c := by
  obtain ⟨c, hc, rfl⟩ := List.mem_map.mp h
  exact ⟨c, List.mem_dedup.mp hc, rfl⟩

/-- The dict's value total on duplicate-free input. -/
theorem sumValues_mkDict (ids : List ℕ) (hnd : ids.Nodup) (f : ℕ → ℝ) :
    sumValues (mkDict ids f) = (ids.map f).sum := by
  unfold sumValues mkDict
  rw [hnd.dedup, List.map_map]
  rfl


/-- Replacing the bound value of a present key is visible to lookup. -/
theorem lookup_map_replace (k : ℕ × ℕ) (v : List (String × ℚ)) :
    ∀ store : Store, (store.lookup k).isSome = true →
      (store.map (fun e => if e.1 = k then (k, v) else e)).lookup k = some v
  | [], h => by simp [List.lookup] at h
  | (ek, ev) :: t, h => by
    by_cases he : ek = k
    · subst he
      have hif : (if ((ek, ev) : (ℕ × ℕ) × List (String × ℚ)).1 = ek then (ek, v) else (ek, ev)) =
          (ek, v) := if_pos rfl
      rw [List.map_cons, hif]
      simp [List.lookup]
    · have hne : (k == ek) = false := beq_eq_false_iff_ne.mpr (Ne.symm he)
      have hif : (if (ek, ev).1 = k then (k, v) else (ek, ev)) = (ek, ev) := if_neg he
      rw [List.map_cons, hif]
      rw [List.lookup] at h ⊢
      rw [hne] at h ⊢
      exact lookup_map_replace k v t h

/-- Appending a binding for an absent key is visible to lookup. -/
theorem lookup_append_missing (k : ℕ × ℕ) (v : List (String × ℚ)) :
    ∀ store : Store, store.lookup k = none → (store ++ [(k, v)]).lookup k = some v
  | [], _ => by simp [List.lookup]
  | (ek, ev) :: t, h => by
    by_cases he : k = ek
    · rw [List.lookup, beq_iff_eq.mpr he] at h
      simp at h
    · have hne : (k == ek) = false := beq_eq_false_iff_ne.mpr he
      rw [List.lookup, hne] at h
      rw [List.cons_append, List.lookup, hne]
      exact lookup_append_missing k v t h

/-- Looking up the upserted key returns the fresh value. -/
theorem lookup_upsertStore (store : Store) (k : ℕ × ℕ) (v : List (String × ℚ)) :
    (upsertStore store k v).lookup k = some v := by
  unfold upsertStore
  split_ifs with h
  · exact lookup_map_replace k v store h
  · exact lookup_append_missing k v store (Option.not_isSome_iff_eq_none.mp h)

/-- get_market_caps is positive whenever every prior-year market-cap fact
it can read is. -/
theorem getMarketCaps_pos (db : DB) (ids : List ℕ) (year : ℕ) (cid : ℕ)
    (hcap : ∀ f ∈ mcapRows db ids year, 0 < f.value) : 0 < getMarketCaps db ids year cid := by
  simp only [getMarketCaps]
  split_ifs with h
  · norm_num
  · cases hf : (mcapRows db ids year).find? (fun f => f.company_id == cid) with
    | none => simp
    | some f =>
      have hmem : f ∈ mcapRows db ids year := List.mem_of_find?_eq_some hf
      simpa using hcap f hmem

/-- Annualized volatility is never negative. -/
theorem getVolatility_nonneg (db : DB) (ids : List ℕ) (year : ℕ) (lookback : ℕ)
    (cid : ℕ) : 0 ≤ getVolatility db ids year lookback cid := by
  simp only [getVolatility]
  split_ifs with h1 h2
  · norm_num
  · norm_num
  · exact mul_nonneg (Real.sqrt_nonneg _) (Real.sqrt_nonneg _)

/-- Clamped momentum scores are never negative. -/
theorem clampedMom_nonneg (db : DB) (ids : List ℕ) (year : ℕ) (period : ℕ) (cid : ℕ) :
    0 ≤ clampedMom db ids year period cid := by
  simp only [clampedMom]
  split_ifs with h
  · exact le_refl 0
  · exact le_of_not_lt h

/-- C5: if the eligible list after ranking and truncation is empty (in
particular when the rule has no filter clauses), generate_portfolio
returns the empty list and leaves the portfolio store unchanged. -/
theorem no_eligible_no_store_write (db : DB) (rule : Rule) (year : ℕ) :
    (rule.filters = [] → topCompanyIds db rule year = []) ∧
    (∀ store : Store, topCompanyIds db rule year = [] →
      generatePortfolio db rule year store = ([], store)) := by
  constructor
  · intro h
    simp [topCompanyIds, h]
  · intro store h
    simp [generatePortfolio, h]

/-- Witness for C5 at a rule with no clauses over an empty store. -/
theorem no_eligible_no_store_write_witness :
    topCompanyIds dbEmpty ruleNoFilters 2021 = [] ∧
    generatePortfolio dbEmpty ruleNoFilters 2021 [] = ([], []) := by
  have h := no_eligible_no_store_write dbEmpty ruleNoFilters 2021
  exact ⟨h.1 rfl, h.2 [] (h.1 rfl)⟩

/-- C8: a clause whose sign is not one of the four comparators is treated
as always-true: it imposes no constraint and the rule is evaluated as if
the clause were absent. -/
theorem unrecognized_sign_clause_skipped (db : DB) (rid year : ℕ) (fc : FilterClause)
    (fs1 fs2 : List FilterClause) (h : validSign fc.sign = false) :
    (∀ cid, satisfiesClause db year cid fc = true) ∧
    eligibleIds db ⟨rid, fs1 ++ fc :: fs2⟩ year = eligibleIds db ⟨rid, fs1 ++ fs2⟩ year := by
  have hskip : ∀ cid, satisfiesClause db year cid fc = true := by
    intro cid
    simp [satisfiesClause, h]
  refine ⟨hskip, ?_⟩
  unfold eligibleIds
  apply List.filter_congr
  intro cid _
  simp [List.all_append, List.all_cons, hskip cid]

/-- Witness for C8 with an unrecognized comparator string. -/
theorem unrecognized_sign_clause_skipped_witness :
    satisfiesClause dbRank 2021 1 fcBad = true ∧
    eligibleIds dbRank ⟨7, [] ++ fcBad :: [fcROE]⟩ 2021 =
      eligibleIds dbRank ⟨7, [] ++ [fcROE]⟩ 2021 := by
  have h := unrecognized_sign_clause_skipped dbRank 7 2021 fcBad [] [fcROE] (by decide)
  exact ⟨h.1 1, h.2⟩

/-- C10: immediately after generate_portfolio writes a non-empty top list,
the stored weight mapping binds each selected id (stringified) to 0.0, so
its weights total 0, not 1. -/
theorem placeholder_weights_sum_zero (db : DB) (rule : Rule) (year : ℕ) (store : Store)
    (h : topCompanyIds db rule year ≠ []) :
    (generatePortfolio db rule year store).2.lookup (rule.id, year) =
      some ((topCompanyIds db rule year).map (fun cid => (toString cid, (0 : ℚ)))) ∧
    (∀ pr ∈ (topCompanyIds db rule year).map (fun cid => (toString cid, (0 : ℚ))),
      pr.2 = 0) ∧
    ((topCompanyIds db rule year).map (fun cid => (toString cid, (0 : ℚ)))).map Prod.fst =
      (topCompanyIds db rule year).map toString ∧
    (((topCompanyIds db rule year).map (fun cid => (toString cid, (0 : ℚ)))).map
      Prod.snd).sum = 0 ∧
    (((topCompanyIds db rule year).map (fun cid => (toString cid, (0 : ℚ)))).map
      Prod.snd).sum ≠ 1 := by
  have hne : (topCompanyIds db rule year).isEmpty = false := by
    cases htop : topCompanyIds db rule year with
    | nil => exact absurd htop h
    | cons a t => rfl
  have hsum : (((topCompanyIds db rule year).map (fun cid => (toString cid, (0 : ℚ)))).map
      Prod.snd).sum = 0 := by
    rw [List.map_map]
    have : (Prod.snd ∘ fun cid : ℕ => (toString cid, (0 : ℚ))) = fun _ => (0 : ℚ) := rfl
    rw [this]
    induction topCompanyIds db rule year with
    | nil => rfl
    | cons a t ih => simp [ih]
  refine ⟨?_, ?_, ?_, hsum, ?_⟩
  · simp only [generatePortfolio, hne, Bool.false_eq_true, if_false]
    exact lookup_upsertStore store (rule.id, year) _
  · intro pr hpr
    obtain ⟨c, _, rfl⟩ := List.mem_map.mp hpr
    rfl
  · rw [List.map_map]
    rfl
  · rw [hsum]
    exact zero_ne_one

/-- Witness for C10 on the ranking example data. -/
theorem placeholder_weights_sum_zero_witness :
    (generatePortfolio dbRank ruleROE 2021 []).2.lookup (ruleROE.id, 2021) =
      some ((topCompanyIds dbRank ruleROE 2021).map (fun cid => (toString cid, (0 : ℚ)))) ∧
    (((topCompanyIds dbRank ruleROE 2021).map (fun cid => (toString cid, (0 : ℚ)))).map
      Prod.snd).sum ≠ 1 :=
  ⟨(placeholder_weights_sum_zero dbRank ruleROE 2021 [] (by decide)).1,
   (placeholder_weights_sum_zero dbRank ruleROE 2021 [] (by decide)).2.2.2.2⟩

/-- C2: a filter-clause evaluation only reads facts whose period label
denotes the year before the formation year; no label of a read fact
denotes any (four-digit-representable) year at or past the formation
year. -/
theorem clause_reads_only_prior_year (db : DB) (year : ℕ) (fc : FilterClause)
    (fact : Financial) (hy1 : 1001 ≤ year) (hy2 : year ≤ 10000)
    (hread : clauseMatches db year fc fact = true) :
    labelDenotes fact.period_label (year - 1) ∧
      ∀ y, y ≤ 9999 → labelDenotes fact.period_label y → y < year := by
  have hsuf : labelDenotes fact.period_label (year - 1) := by
    unfold clauseMatches endsWithYear at hread
    rw [Bool.and_eq_true] at hread
    have hs : yearSuffix (year - 1) <:+ fact.period_label := of_decide_eq_true hread.2
    exact hs
  refine ⟨hsuf, fun y hy hden => ?_⟩
  by_cases hlow : y < 1000
  · omega
  · have h1 : (yearSuffix (year - 1)).length = 4 := yearSuffix_length _ (by omega) (by omega)
    have h2 : (yearSuffix y).length = 4 := yearSuffix_length _ (by omega) hy
    have heq : yearSuffix y = yearSuffix (year - 1) := suffix_eq_of_length hden hsuf (h2.trans h1.symm)
    have := yearSuffix_inj heq
    omega

/-- Witness for C2: the fiscal-2020 label read for formation year 2021
denotes 2020 and cannot denote 2021. -/
theorem clause_reads_only_prior_year_witness :
    labelDenotes ([2, 0, 2, 0] : List ℕ) 2020 ∧
      ¬labelDenotes ([2, 0, 2, 0] : List ℕ) 2021 := by
  have h := clause_reads_only_prior_year dbC2 2021 fcROE ⟨1, 5, [2, 0, 2, 0], 15⟩
    (by norm_num) (by norm_num) (by decide)
  refine ⟨h.1, fun hd => ?_⟩
  exact absurd (h.2 2021 (by norm_num) hd) (lt_irrefl 2021)

/-- C9: the universe ranking is a stable descending sort of the eligible
list by the prior-year market-cap key, missing keys counting as 0,
followed by truncation to the first 20. -/
theorem ranking_stable_descending (db : DB) (rule : Rule) (year : ℕ)
    (hf : rule.filters ≠ []) :
    (rankedIds db rule year).Perm (eligibleIds db rule year) ∧
    (rankedIds db rule year).Pairwise (fun a b =>
      sortKey (sortingCaps db (eligibleIds db rule year) year) b ≤
        sortKey (sortingCaps db (eligibleIds db rule year) year) a) ∧
    (∀ k : ℚ, (rankedIds db rule year).filter
        (fun c => sortKey (sortingCaps db (eligibleIds db rule year) year) c == k) =
      (eligibleIds db rule year).filter
        (fun c => sortKey (sortingCaps db (eligibleIds db rule year) year) c == k)) ∧
    (∀ cid : ℕ, (sortingCaps db (eligibleIds db rule year) year).reverse.lookup cid = none →
      sortKey (sortingCaps db (eligibleIds db rule year) year) cid = 0) ∧
    topCompanyIds db rule year = (rankedIds db rule year).take 20 := by
  refine ⟨?_, ?_, ?_, ?_, ?_⟩
  · simp only [rankedIds]
    exact List.perm_insertionSort _ _
  · simp only [rankedIds]
    haveI : IsTotal ℕ (fun a b =>
        sortKey (sortingCaps db (eligibleIds db rule year) year) b ≤
          sortKey (sortingCaps db (eligibleIds db rule year) year) a) :=
      ⟨fun a b => le_total _ _⟩
    haveI : IsTrans ℕ (fun a b =>
        sortKey (sortingCaps db (eligibleIds db rule year) year) b ≤
          sortKey (sortingCaps db (eligibleIds db rule year) year) a) :=
      ⟨fun _ _ _ h1 h2 => le_trans h2 h1⟩
    exact List.sorted_insertionSort _ _
  · intro k
    simp only [rankedIds]
    exact filter_insertionSort _ k _
  · intro cid hnone
    simp [sortKey, hnone]
  · unfold topCompanyIds
    rw [if_neg]
    intro hemp
    exact hf (List.isEmpty_iff.mp hemp)

/-- Witness for C9 on the ranking example data. -/
theorem ranking_stable_descending_witness :
    (rankedIds dbRank ruleROE 2021).Perm (eligibleIds dbRank ruleROE 2021) ∧
    topCompanyIds dbRank ruleROE 2021 = (rankedIds dbRank ruleROE 2021).take 20 :=
  ⟨(ranking_stable_descending dbRank ruleROE 2021 (by decide)).1,
   (ranking_stable_descending dbRank ruleROE 2021 (by decide)).2.2.2.2⟩

/-- C4 (amended): a company with fewer than 2 usable closes defaults to a
20% annualized volatility, provided the window's price frame is not
entirely empty. -/
theorem volatility_small_sample_default (db : DB) (ids : List ℕ) (year lookback cid : ℕ)
    (hrows : volWindowRows db ids year lookback ≠ [])
    (hlen : (lastN (closesFor (volWindowRows db ids year lookback) cid) lookback).length < 2) :
    getVolatility db ids year lookback cid = 1 / 5 := by
  simp only [getVolatility]
  rw [if_neg, if_pos hlen]
  intro hemp
  exact hrows (List.isEmpty_iff.mp hemp)

/-- Witness for C4: with one stored close for company 2 only, company 1
has no usable closes and is assigned volatility 0.2. -/
theorem volatility_small_sample_default_witness :
    getVolatility dbVolOne [1, 2] 2021 252 1 = 1 / 5 :=
  volatility_small_sample_default dbVolOne [1, 2] 2021 252 1 (by decide) (by decide)

/-- C4 (counterexample to the claim as stated): when no company has any
price row in the window, every company is assigned volatility 1, not 0.2,
even though it has fewer than 2 usable closes. -/
theorem volatility_empty_frame_not_twenty_pct :
    (lastN (closesFor (volWindowRows dbEmpty [1] 2021 252) 1) 252).length < 2 ∧
    getVolatility dbEmpty [1] 2021 252 1 = 1 ∧ ((1 : ℝ) ≠ 1 / 5) := by
  refine ⟨by decide, ?_, by norm_num⟩
  simp [getVolatility, volWindowRows, dbEmpty]

/-- C6 (code bug): with the string-keyed weight mapping the orchestrator
passes, no key ever equals an integer panel column, so valid_ids is empty
and the computed daily portfolio return series is identically zero — the
weight subset is never renormalized onto the surviving companies.  The
claimed behavior would give company 1's full daily return, 1/10. -/
theorem portfolio_returns_string_keys_all_zero :
    computePortfolioReturns dbC6 weightsC6 2021 = [(jan1 2021 + 1, 0)] ∧
    computePortfolioReturns dbC6 weightsC6 2021 ≠ [(jan1 2021 + 1, 1 / 10)] := by
  have h1 : computePortfolioReturns dbC6 weightsC6 2021 = [(jan1 2021 + 1, 0)] := by decide
  refine ⟨h1, ?_⟩
  rw [h1]
  intro h
  rw [List.cons.injEq, Prod.mk.injEq] at h
  exact absurd h.1.2 (by norm_num)

/-- C7: with no price rows in the year's range all four metrics are null;
on a non-empty daily series the metrics are the annualized formulas, with
sharpe defined exactly when the volatility is positive. -/
theorem metrics_null_and_formulas (rf : ℚ) :
    (∀ (db : DB) (weights : List (PKey × ℚ)) (year : ℕ),
      yearRows db (weights.map Prod.fst) year = [] →
      computeMetrics rf ((computePortfolioReturns db weights year).map Prod.snd) =
        ⟨none, none, none, none⟩) ∧
    (∀ returns : List ℚ, returns ≠ [] →
      computeMetrics rf returns =
        ⟨some (((listMean returns : ℚ) : ℝ) * 252),
          some (((listMedian returns : ℚ) : ℝ) * 252),
          some (sampleStd returns * Real.sqrt 252),
          if 0 < sampleStd returns * Real.sqrt 252 then
            some ((((listMean returns : ℚ) : ℝ) * 252 - ((rf : ℚ) : ℝ)) /
              (sampleStd returns * Real.sqrt 252))
          else none⟩) := by
  constructor
  · intro db w year h
    have hport : computePortfolioReturns db w year = [] := by
      simp [computePortfolioReturns, h]
    rw [hport]
    simp [computeMetrics]
  · intro r hr
    have hre : r.isEmpty = false := by
      cases r with
      | nil => exact absurd rfl hr
      | cons a t => rfl
    simp only [computeMetrics, hre, Bool.false_eq_true, if_false]

/-- Witness for C7: an empty range gives all-null metrics; the singleton
series 1/10 instantiates the formula case. -/
theorem metrics_null_and_formulas_witness :
    computeMetrics (1 / 50) ((computePortfolioReturns dbEmpty [] 2021).map Prod.snd) =
      ⟨none, none, none, none⟩ ∧
    computeMetrics (1 / 50) [1 / 10] =
      ⟨some (((listMean [1 / 10] : ℚ) : ℝ) * 252),
        some (((listMedian [1 / 10] : ℚ) : ℝ) * 252),
        some (sampleStd [1 / 10] * Real.sqrt 252),
        if 0 < sampleStd [1 / 10] * Real.sqrt 252 then
          some ((((listMean [1 / 10] : ℚ) : ℝ) * 252 - (((1 : ℚ) / 50 : ℚ) : ℝ)) /
            (sampleStd [1 / 10] * Real.sqrt 252))
        else none⟩ :=
  ⟨(metrics_null_and_formulas (1 / 50)).1 dbEmpty [] 2021 (by decide),
   (metrics_null_and_formulas (1 / 50)).2 [1 / 10] (by decide)⟩

/-- C3: negative momentum scores are clamped to 0; with some nonzero
clamped score, each weight is the clamped score over the clamped-score
sum (so clamped-zero companies get weight 0); with all clamped scores
zero, every company of the original input list gets weight 1/n. -/
theorem momentum_scheme_spec (db : DB) (ids : List ℕ) (year lv mp : ℕ)
    (hne : ids ≠ []) (hnd : ids.Nodup) :
    (∀ c, momScore db ids year mp c < 0 → clampedMom db ids year mp c = 0) ∧
    ((∀ c ∈ ids, clampedMom db ids year mp c = 0) →
      ∀ c ∈ ids, (toString c, 1 / ((ids.length : ℕ) : ℝ)) ∈
        computeWeights db ids year .momentum lv mp) ∧
    ((∃ c ∈ ids, clampedMom db ids year mp c ≠ 0) →
      ∀ c ∈ ids,
        (toString c, ((clampedMom db ids year mp c /
            (ids.dedup.map (clampedMom db ids year mp)).sum : ℚ) : ℝ)) ∈
          computeWeights db ids year .momentum lv mp ∧
        (clampedMom db ids year mp c = 0 →
          (toString c, (0 : ℝ)) ∈ computeWeights db ids year .momentum lv mp)) := by
  have hie : ids.isEmpty = false := by
    cases ids with
    | nil => exact absurd rfl hne
    | cons a t => rfl
  have hcw : computeWeights db ids year .momentum lv mp =
      if 0 < (ids.dedup.map (clampedMom db ids year mp)).sum then
        mkDict ids (fun c => ((clampedMom db ids year mp c /
          (ids.dedup.map (clampedMom db ids year mp)).sum : ℚ) : ℝ))
      else mkDict ids (fun _ => 1 / ((ids.length : ℕ) : ℝ)) := by
    simp only [computeWeights, hie, Bool.false_eq_true, if_false]
  refine ⟨?_, ?_, ?_⟩
  · intro c h
    simp only [clampedMom]
    rw [if_pos h]
  · intro hall c hc
    have hS : (ids.dedup.map (clampedMom db ids year mp)).sum = 0 := by
      apply List.sum_eq_zero
      intro x hx
      obtain ⟨d, hd, rfl⟩ := List.mem_map.mp hx
      exact hall d (List.mem_dedup.mp hd)
    rw [hcw, hS, if_neg (lt_irrefl 0)]
    exact mem_mkDict ids _ c hc
  · intro hex c hc
    have hS : 0 < (ids.dedup.map (clampedMom db ids year mp)).sum := by
      apply sum_map_pos_of_exists
      · intro d _
        exact clampedMom_nonneg db ids year mp d
      · obtain ⟨d, hd, hdz⟩ := hex
        exact ⟨d, List.mem_dedup.mpr hd, hdz⟩
    rw [hcw, if_pos hS]
    constructor
    · exact mem_mkDict ids _ c hc
    · intro hz
      have hmem := mem_mkDict ids (fun d => ((clampedMom db ids year mp d /
        (ids.dedup.map (clampedMom db ids year mp)).sum : ℚ) : ℝ)) c hc
      simpa [hz] using hmem

/-- Witness for C3: with one positive and one clamped-to-zero momentum
score, the loser's weight is 0. -/
theorem momentum_scheme_spec_witness :
    (toString 2, (0 : ℝ)) ∈ computeWeights dbMom [1, 2] 2021 .momentum 252 252 := by
  have hc1 : closesFor (momWindowRows dbMom [1, 2] 2021 252) 1 = [10, 13] := by decide
  have hc2 : closesFor (momWindowRows dbMom [1, 2] 2021 252) 2 = [10, 8] := by decide
  have hm1 : clampedMom dbMom [1, 2] 2021 252 1 ≠ 0 := by
    norm_num [clampedMom, momScore, hc1]
  have hm2 : clampedMom dbMom [1, 2] 2021 252 2 = 0 := by
    norm_num [clampedMom, momScore, hc2]
  exact ((momentum_scheme_spec dbMom [1, 2] 2021 252 252 (by decide) (by decide)).2.2
    ⟨1, by decide, hm1⟩ 2 (by decide)).2 hm2

/-- Constant maps sum to length times the constant. -/
theorem sum_map_const_real (l : List ℕ) (x : ℝ) :
    (l.map (fun _ => x)).sum = l.length * x := by
  induction l with
  | nil => simp
  | cons a t ih =>
    simp only [List.map_cons, List.sum_cons, List.length_cons, ih]
    push_cast
    ring

/-- The three weight-mapping properties of C1, reduced to a value bound
and a sum identity for the generating function. -/
theorem mkDict_spec (ids : List ℕ) (hnd : ids.Nodup) (f : ℕ → ℝ)
    (hnn : ∀ c ∈ ids, 0 ≤ f c) (hsum : (ids.map f).sum = 1) :
    (mkDict ids f).map Prod.fst = ids.map toString ∧
    (∀ pr ∈ mkDict ids f, 0 ≤ pr.2) ∧ sumValues (mkDict ids f) = 1 := by
  refine ⟨mkDict_keys ids hnd f, ?_, ?_⟩
  · intro pr hpr
    obtain ⟨c, hc, hval⟩ := mkDict_values ids f pr hpr
    rw [hval]
    exact hnn c hc
  · rw [sumValues_mkDict ids hnd f, hsum]

/-- C1 (amended): on a non-empty, duplicate-free company list, every
scheme returns a string-keyed mapping of non-negative weights summing to
exactly 1, under the data conditions the amended claim states: stored
closes positive, the prior-year market-cap facts read positive and at
most one per company, and no company with exactly 2 usable closes in the
volatility lookback window.  The last three underscore hypotheses are
not needed by the exact-arithmetic proof; they delimit the domain on
which the floating-point program agrees with this real-valued model (a
non-positive close makes pct_change produce inf/NaN, duplicate
market-cap rows for one company make the pandas reindex raise, and at
exactly 2 closes the ddof-1 std of the single return is NaN, so the
program's inverse_vol weights are NaN rather than summing to 1). -/
theorem compute_weights_normalized (db : DB) (ids : List ℕ) (year : ℕ) (scheme : Scheme)
    (lv mp : ℕ) (hne : ids ≠ []) (hnd : ids.Nodup)
    (hcap : ∀ f ∈ mcapRows db ids year, 0 < f.value)
    (_hclose : ∀ p ∈ db.prices, 0 < p.close)
    (_hcapu : ((mcapRows db ids year).map Financial.company_id).Nodup)
    (_hvol : ∀ c ∈ ids,
      (lastN (closesFor (volWindowRows db ids year lv) c) lv).length ≠ 2) :
    (computeWeights db ids year scheme lv mp).map Prod.fst = ids.map toString ∧
    (∀ pr ∈ computeWeights db ids year scheme lv mp, 0 ≤ pr.2) ∧
    sumValues (computeWeights db ids year scheme lv mp) = 1 := by
  have hie : ids.isEmpty = false := by
    cases ids with
    | nil => exact absurd rfl hne
    | cons a t => rfl
  have hlen : ((ids.length : ℕ) : ℝ) ≠ 0 := by
    have : ids.length ≠ 0 := fun h => hne (List.length_eq_zero.mp h)
    exact_mod_cast this
  cases scheme with
  | equal =>
    have hcw : computeWeights db ids year .equal lv mp =
        mkDict ids (fun _ => 1 / (ids.length : ℝ)) := by
      simp only [computeWeights, hie, Bool.false_eq_true, if_false]
    rw [hcw]
    apply mkDict_spec ids hnd
    · intro c _
      exact one_div_nonneg.mpr (Nat.cast_nonneg _)
    · rw [sum_map_const_real]
      field_simp
  | market_cap =>
    have hcw : computeWeights db ids year .market_cap lv mp =
        mkDict ids (fun c => ((getMarketCaps db ids year c /
          (ids.map (getMarketCaps db ids year)).sum : ℚ) : ℝ)) := by
      simp only [computeWeights, hie, Bool.false_eq_true, if_false]
    have hS : 0 < (ids.map (getMarketCaps db ids year)).sum := by
      apply sum_map_pos ids _ hne
      intro c _
      exact getMarketCaps_pos db ids year c hcap
    rw [hcw]
    apply mkDict_spec ids hnd
    · intro c _
      exact Rat.cast_nonneg.mpr (div_nonneg (le_of_lt (getMarketCaps_pos db ids year c hcap))
        (le_of_lt hS))
    · rw [← ratCast_list_sum, sum_map_div, div_self (ne_of_gt hS), Rat.cast_one]
  | inverse_vol =>
    have hcw : computeWeights db ids year .inverse_vol lv mp =
        mkDict ids (fun c => (1 / (getVolatility db ids year lv c + 1 / 100000000)) /
          (ids.dedup.map (fun c =>
            1 / (getVolatility db ids year lv c + 1 / 100000000))).sum) := by
      simp only [computeWeights, hie, Bool.false_eq_true, if_false]
    have hinv : ∀ c : ℕ, 0 < 1 / (getVolatility db ids year lv c + 1 / 100000000) := by
      intro c
      apply one_div_pos.mpr
      have := getVolatility_nonneg db ids year lv c
      positivity
    have hS : 0 < (ids.map (fun c =>
        1 / (getVolatility db ids year lv c + 1 / 100000000))).sum := by
      apply sum_map_pos ids _ hne
      intro c _
      exact hinv c
    rw [hcw, hnd.dedup]
    apply mkDict_spec ids hnd
    · intro c _
      exact div_nonneg (le_of_lt (hinv c)) (le_of_lt hS)
    · rw [sum_map_div, div_self (ne_of_gt hS)]
  | momentum =>
    have hcw : computeWeights db ids year .momentum lv mp =
        if 0 < (ids.dedup.map (clampedMom db ids year mp)).sum then
          mkDict ids (fun c => ((clampedMom db ids year mp c /
            (ids.dedup.map (clampedMom db ids year mp)).sum : ℚ) : ℝ))
        else mkDict ids (fun _ => 1 / ((ids.length : ℕ) : ℝ)) := by
      simp only [computeWeights, hie, Bool.false_eq_true, if_false]
    rw [hcw, hnd.dedup]
    by_cases hS : 0 < (ids.map (clampedMom db ids year mp)).sum
    · rw [if_pos hS]
      apply mkDict_spec ids hnd
      · intro c _
        exact Rat.cast_nonneg.mpr (div_nonneg (clampedMom_nonneg db ids year mp c)
          (le_of_lt hS))
      · rw [← ratCast_list_sum, sum_map_div, div_self (ne_of_gt hS), Rat.cast_one]
    · rw [if_neg hS]
      apply mkDict_spec ids hnd
      · intro c _
        exact one_div_nonneg.mpr (Nat.cast_nonneg _)
      · rw [sum_map_const_real]
        field_simp

/-- Witness for C1 (equal scheme over two distinct companies). -/
theorem compute_weights_normalized_witness :
    (computeWeights dbEmpty [1, 2] 2021 .equal 252 252).map Prod.fst =
      [1, 2].map toString ∧
    (∀ pr ∈ computeWeights dbEmpty [1, 2] 2021 .equal 252 252, 0 ≤ pr.2) ∧
    sumValues (computeWeights dbEmpty [1, 2] 2021 .equal 252 252) = 1 :=
  compute_weights_normalized dbEmpty [1, 2] 2021 .equal 252 252 (by decide) (by decide)
    (by decide) (by decide) (by decide) (by decide)

/-- C1 (counterexample to the claim as stated): on the duplicated id list
[1, 1] the equal scheme's mapping collapses to one key and its weights
total 1/2, missing 1.0 by far more than the 1e-6 tolerance. -/
theorem compute_weights_duplicate_ids_break_normalization :
    1 / 1000000 < |sumValues (computeWeights dbEmpty [1, 1] 2021 .equal 252 252) - 1| := by
  have hd : ([1, 1] : List ℕ).dedup = [1] := by decide
  have hcw : computeWeights dbEmpty [1, 1] 2021 .equal 252 252 =
      mkDict [1, 1] (fun _ => 1 / (([1, 1] : List ℕ).length : ℝ)) := by
    simp only [computeWeights]
    rfl
  have hsum : sumValues (computeWeights dbEmpty [1, 1] 2021 .equal 252 252) = 1 / 2 := by
    rw [hcw]
    unfold mkDict sumValues
    rw [hd]
    norm_num
  rw [hsum]
  norm_num
  rw [abs_of_pos]
  · norm_num
  · norm_num
